import Mathlib

/-!
Verification of the dependency-ordinal remapping engine and stub-symbol
synthesis pipeline of `dylibify` (src/cpp/dylibify-lief-cpp.cpp), as a
shallow embedding in Lean 4.

Machine integers are modelled as `Nat`/`Int` with explicit `% 2^w` at the
points where the C++ code narrows a value: the 16-bit `n_desc` symbol
descriptor, the 8-bit packed library ordinal, and the `int32_t` ordinals
(whose values in this program are always small and non-negative, so only
the `int32 -> uint8` narrowing in `set_library_ordinal` is observable).
-/

namespace Dylibify

/-- Model of `static uint8_t get_library_ordinal(uint16_t n_desc)`:
`return n_desc >> 8;`.  The `% 65536` records the `uint16_t` width of the
argument; `>> 8` on a 16-bit value is division by 256. -/
def get_library_ordinal (n_desc : Nat) : Nat :=
  (n_desc % 65536) / 256

/-- Model of `static void set_library_ordinal(uint16_t &n_desc, uint8_t ordinal)`:
`n_desc = (n_desc & 0x00FF) | (ordinal << 8);`.  `& 0x00FF` is `% 256`, the
`uint8_t` parameter is `% 256`, and since the two operands of `|` have
disjoint bit ranges the `|` is addition. -/
def set_library_ordinal (n_desc ordinal : Nat) : Nat :=
  ((n_desc % 65536) % 256) + (ordinal % 256) * 256

/-- Conversion of a C++ `int32_t` value to `uint8_t`, as performed implicitly
at the call `set_library_ordinal(new_desc, new_ord)` (line 402): reduction
modulo 256 with a non-negative result (`Int.emod`). -/
def intToUInt8 (v : Int) : Nat :=
  (v % 256).toNat

/-- Sentinel value `SYMBOL_DESCRIPTIONS::SELF_LIBRARY_ORDINAL` (0x0). -/
def SELF_LIBRARY_ORDINAL : Nat := 0x00

/-- Sentinel value `SYMBOL_DESCRIPTIONS::DYNAMIC_LOOKUP_ORDINAL` (0xfe). -/
def DYNAMIC_LOOKUP_ORDINAL : Nat := 0xfe

/-- Sentinel value `SYMBOL_DESCRIPTIONS::EXECUTABLE_ORDINAL` (0xff). -/
def EXECUTABLE_ORDINAL : Nat := 0xff

/-- One dylib-related load command of a binary: its name string and whether
it is the self-identity command (`LC_ID_DYLIB`), which every ordinal scan
in the source skips. -/
structure DylibCmd where
  name : String
  isId : Bool
deriving DecidableEq

/-- Names of the non-self dependency entries of a table, in declaration
order.  This is the sequence every ordinal-numbering loop in the source
walks (`for (const auto &dylib_cmd : binary.libraries())` with the
`LC_ID_DYLIB` entries skipped). -/
def nonIdNames (t : List DylibCmd) : List String :=
  (t.filter (fun c => !c.isId)).map DylibCmd.name

/-- Model of the ordinal-table construction loops (lines 178-186 for the
original table and 355-363 for the recomputed one):

    std::map<std::string, int32_t> m; int32_t idx = 1;
    for (cmd : libraries) if (!LC_ID_DYLIB) \x7b m.emplace(cmd.name, idx); ++idx; \x7d

`std::map::emplace` inserts only when the key is absent, but `idx` is
incremented for every non-id entry regardless.  `seen` carries the names
already processed, which is exactly the set of keys present in the map so
far. -/
def ordinalEntries (seen : List String) (idx : Int) : List DylibCmd → List (String × Int)
  | [] => []
  | c :: rest =>
    if c.isId then
      ordinalEntries seen idx rest
    else if c.name ∈ seen then
      ordinalEntries (c.name :: seen) (idx + 1) rest
    else
      (c.name, idx) :: ordinalEntries (c.name :: seen) (idx + 1) rest

/-- The name-to-ordinal table of a dependency table, starting from ordinal 1. -/
def buildOrdinalMap (t : List DylibCmd) : List (String × Int) :=
  ordinalEntries [] 1 t

/-- Specification-side definition ("assign ordinals `idx, idx+1, ...` in
declaration order"): the entries `(l[0], idx), (l[1], idx+1), ...`.  Used to
compare the source's ordinal table against the spec's declaration-order
description. -/
def consecEntries (idx : Int) : List String → List (String × Int)
  | [] => []
  | n :: rest => (n, idx) :: consecEntries (idx + 1) rest

/-- The list of integers `a, a+1, ..., a+n-1`. -/
def intRange (a : Int) : Nat → List Int
  | 0 => []
  | n + 1 => a :: intRange (a + 1) n

/-- Model of `binary.remove(*orig_libraries[name])` (line 342):
`orig_libraries[name]` points at the first non-`LC_ID_DYLIB` command with
that name (lines 170-176 use `std::map::emplace`, which keeps the first
occurrence), and that one command is removed from the table. -/
def removeFirstNonId : List DylibCmd → String → List DylibCmd
  | [], _ => []
  | c :: rest, n =>
    if !c.isId && c.name == n then rest else c :: removeFirstNonId rest n

/-- Removal of every name of `removeSet` (lines 336-343; `remove_dylib_set`
is a `std::set`, so the names are pairwise distinct). -/
def applyRemovals (t : List DylibCmd) (removeSet : List String) : List DylibCmd :=
  removeSet.foldl removeFirstNonId t

/-- The structural mutation of the dependency table performed by `dylibify`
between the two ordinal scans: add the `LC_ID_DYLIB` self entry (line 232),
remove every dependency of the removal set (lines 336-343), and append one
stub `LC_LOAD_DYLIB` entry exactly when the orphaned-symbol set is non-empty
(lines 345-353). -/
def mutate (t : List DylibCmd) (removeSet : List String) (idName stubName : String)
    (hasOrphans : Bool) : List DylibCmd :=
  let t2 := applyRemovals (t ++ [⟨idName, true⟩]) removeSet
  if hasOrphans then t2 ++ [⟨stubName, false⟩] else t2

/-- The ordinal a removed dependency is redirected to (line 375):
`new_ordinal_map[*stub_path]` — `std::map::operator[]` yields the stub's
new ordinal when the stub entry exists, and value-initialized `0` when it
does not. -/
def stubOrdinal (newMap : List (String × Int)) (stubName : String) : Int :=
  (newMap.lookup stubName).getD 0

/-- Model of the `orig_to_new_ordinal_map` construction loop (lines
365-377).  For every `(name, ordinal)` entry of the original table: if the
name is still in the recomputed table, map the old ordinal to its new
ordinal; otherwise `assert(remove_dylib_set.contains(name))` — a failed
assertion aborts the program, modelled as `none` — and map the old ordinal
to the stub's ordinal. -/
def origToNew (newMap : List (String × Int)) (removeSet : List String)
    (stubName : String) : List (String × Int) → Option (List (Int × Int))
  | [] => some []
  | (nm, o) :: rest =>
    match newMap.lookup nm with
    | some n => (origToNew newMap removeSet stubName rest).map (fun m => (o, n) :: m)
    | none =>
      if removeSet.contains nm then
        (origToNew newMap removeSet stubName rest).map
          (fun m => (o, stubOrdinal newMap stubName) :: m)
      else none

/-- The old-to-new ordinal map produced by the whole remapping pass for a
given input table, removal set and orphan flag: original table scanned
before mutation (line 178), new table scanned after mutation (line 355),
then the old-to-new loop (line 365). -/
def ordinalRemap (t : List DylibCmd) (removeSet : List String) (idName stubName : String)
    (hasOrphans : Bool) : Option (List (Int × Int)) :=
  origToNew (buildOrdinalMap (mutate t removeSet idName stubName hasOrphans))
    removeSet stubName (buildOrdinalMap t)

/-- Lookup of a name after the table mutation, resolved as the source's
old-to-new loop does: the recomputed ordinal when present, the stub
ordinal (or value-initialized 0) otherwise. -/
def resolveNew (newMap : List (String × Int)) (stubName : String) (n : String) : Int :=
  match newMap.lookup n with
  | some v => v
  | none => stubOrdinal newMap stubName

/-- Model of the modern binding-record rewrite (lines 382-385):
`binding_info.library_ordinal(orig_to_new_ordinal_map.at(binding_info.library_ordinal()))`.
`std::map::at` on an absent key throws `std::out_of_range`, modelled as
`none`.  Note that no sentinel check precedes the lookup. -/
def rewriteModern (m : List (Int × Int)) (ord : Int) : Option Int :=
  m.lookup ord

/-- Model of the legacy symtab rewrite of one symbol descriptor (lines
390-404): extract the packed ordinal, pass the three sentinel values
through unchanged, otherwise look the ordinal up in the old-to-new map
(`std::map::at`, `none` on absence) and write the new ordinal back into the
descriptor's high byte. -/
def rewriteLegacy (m : List (Int × Int)) (desc : Nat) : Option Nat :=
  let orig_ord := get_library_ordinal desc
  if orig_ord = SELF_LIBRARY_ORDINAL ∨ orig_ord = DYNAMIC_LOOKUP_ORDINAL ∨
      orig_ord = EXECUTABLE_ORDINAL then
    some desc
  else
    match m.lookup (orig_ord : Int) with
    | some new_ord => some (set_library_ordinal desc (intToUInt8 new_ord))
    | none => none

/-- The class-reference naming convention marker `objc_class_prefix` of
`create_stub_objc` (line 54): `"_OBJC_CLASS_$_"`. -/
def objc_class_prefix_str : String := "_OBJC_CLASS_$_"

/-- The plain-symbol naming convention marker `plain_prefix` of
`create_stub_objc` (line 55): `"_"`. -/
def plain_prefix_str : String := "_"

/-- Model of `std::string::starts_with` over the character data.  Symbol
names in a Mach-O symbol table are byte strings; they are modelled here by
their character sequence. -/
def strStartsWith (s p : String) : Bool :=
  p.data.isPrefixOf s.data

/-- Model of `std::string::substr(k)`: drop the first `k` characters. -/
def strDrop (s : String) (n : Nat) : String :=
  ⟨s.data.drop n⟩

/-- The fixed preamble `create_stub_objc` starts from (lines 48-52). -/
def stubHeaderStr : String :=
  "\n#undef NDEBUG\n#include <assert.h>\n#import <Foundation/Foundation.h>\n"

/-- The block emitted for a class-like symbol (lines 60-66): an empty
placeholder `@interface`/`@implementation` pair under the derived class
name. -/
def objcClassBlock (n : String) : String :=
  "\n@interface " ++ n ++ " : NSObject\n@end\n@implementation " ++ n ++ "\n@end\n"

/-- The block emitted for a function-like symbol (lines 69-74): a callable
under the stripped name whose body unconditionally fails an assertion with
a diagnostic naming the unimplemented symbol. -/
def plainFnBlock (n : String) : String :=
  "\nvoid " ++ n ++ "(void) \x7b\n    assert(!\"unimplemented symbols \x27" ++ n ++
    "\x27\");\n\x7d\n"

/-- The symbol-classification loop of `create_stub_objc` (lines 57-78),
accumulating the generated source in `acc` (`objc += ...`).  A symbol that
matches neither naming convention hits `assert(!"this shouldn't happen")`,
which aborts the program: modelled as `none`. -/
def create_stub_objc_go (acc : String) : List String → Option String
  | [] => some acc
  | sym :: rest =>
    if strStartsWith sym objc_class_prefix_str then
      create_stub_objc_go (acc ++ objcClassBlock (strDrop sym objc_class_prefix_str.length)) rest
    else if strStartsWith sym plain_prefix_str then
      create_stub_objc_go (acc ++ plainFnBlock (strDrop sym plain_prefix_str.length)) rest
    else
      none

/-- Model of `create_stub_objc` (lines 47-81): the stand-in Objective-C
source synthesized from the orphaned-symbol set. -/
def create_stub_objc (stub_syms : List String) : Option String :=
  create_stub_objc_go stubHeaderStr stub_syms

/-- Substring containment, used to state what the generated source holds. -/
def strContains (hay sub : String) : Prop :=
  ∃ a b, hay = (a ++ sub) ++ b

/-- First-occurrence deduplication of a name list: the contents of a
`std::set<std::string>` built by repeated insertion (membership is what
matters; iteration order of the set is irrelevant to the claims). -/
def dedupFirst (seen : List String) : List String → List String
  | [] => []
  | n :: rest =>
    if seen.contains n then dedupFirst seen rest
    else n :: dedupFirst (n :: seen) rest

/-- First-occurrence deduplication by key of a (symbol name, library name)
list: the contents of the `std::map` `orig_syms_to_libs` built with
`emplace` (lines 188-194). -/
def dedupByKey (seen : List String) : List (String × String) → List (String × String)
  | [] => []
  | p :: rest =>
    if seen.contains p.1 then dedupByKey seen rest
    else p :: dedupByKey (p.1 :: seen) rest

/-- One architecture slice of the input image, holding the data the core
reads and rewrites: the dylib load commands, the modern binding-record
library ordinals (`dyld_info()->bindings()`), the legacy symtab symbol
descriptors (16-bit values), and the symbol-to-library view obtained from
each symbol's binding info (lines 188-194). -/
structure Binary where
  libs : List DylibCmd
  bindings : List Int
  symtab : List Nat
  symsToLibs : List (String × String)

/-- The orphaned-symbol set of one binary for a removal request
(`remove_sym_set`, lines 324-333): the symbols whose binding-info library
is marked for removal. -/
def orphanSyms (removeDylibs : List String) (b : Binary) : List String :=
  let rs := dedupFirst [] removeDylibs
  ((dedupByKey [] b.symsToLibs).filter (fun p => rs.contains p.2)).map Prod.fst

/-- Rewrite of all modern binding records (lines 382-385); the first absent
ordinal aborts via `std::out_of_range`, modelled as `none`. -/
def rewriteAllModern (m : List (Int × Int)) : List Int → Option (List Int)
  | [] => some []
  | o :: rest =>
    match rewriteModern m o with
    | some n => (rewriteAllModern m rest).map (fun l => n :: l)
    | none => none

/-- Rewrite of all legacy symtab descriptors (lines 390-404). -/
def rewriteAllLegacy (m : List (Int × Int)) : List Nat → Option (List Nat)
  | [] => some []
  | d :: rest =>
    match rewriteLegacy m d with
    | some d2 => (rewriteAllLegacy m rest).map (fun l => d2 :: l)
    | none => none

/-- The abort causes of the conversion, named after the failure taxonomy of
the design: an explicitly requested removal name absent from the imports
(line 308, `return false`), a compiler invocation error or non-zero exit
(lines 110-122 and 414-419, and the `lipo` step at lines 137-147 and
423-430), an orphaned symbol matching neither naming convention (line 76),
an ordinal absent from the old-to-new map (`std::map::at` throwing), and
the assertion at line 373. -/
inductive DyErr where
  | DependencyNotFound
  | ToolchainFailure
  | UnclassifiableSymbol
  | OrdinalOutOfRange
  | AssertFailed
deriving DecidableEq

/-- Model of the body of the per-binary loop of `dylibify` (lines 169-420),
restricted to the dependency/ordinal core: check the explicit removal
names, mutate the dependency table, remap ordinals under both encodings,
and synthesize/compile the stub when symbols were orphaned.  The external
compiler's outcome is the `compilerOk` parameter.  Failure anywhere aborts
the whole conversion with the step's error. -/
def processBinary (idName stubName : String) (compilerOk : Bool)
    (removeDylibs : List String) (b : Binary) : Except DyErr Binary :=
  let ns := nonIdNames b.libs
  if removeDylibs.any (fun d => !(ns.contains d)) then
    .error .DependencyNotFound
  else
    let rs := dedupFirst [] removeDylibs
    let orphans := orphanSyms removeDylibs b
    let post := mutate b.libs rs idName stubName (!orphans.isEmpty)
    match origToNew (buildOrdinalMap post) rs stubName (buildOrdinalMap b.libs) with
    | none => .error .AssertFailed
    | some m =>
      match rewriteAllModern m b.bindings with
      | none => .error .OrdinalOutOfRange
      | some bs =>
        match rewriteAllLegacy m b.symtab with
        | none => .error .OrdinalOutOfRange
        | some st =>
          if orphans.isEmpty then
            .ok { b with libs := post, bindings := bs, symtab := st }
          else
            match create_stub_objc orphans with
            | none => .error .UnclassifiableSymbol
            | some _ =>
              if compilerOk then
                .ok { b with libs := post, bindings := bs, symtab := st }
              else .error .ToolchainFailure

/-- Sequential processing of the architecture slices of the input (the
`for (auto &binary : *binaries)` loop): the first failing slice aborts. -/
def processAll (idName stubName : String) (compilerOk : Bool)
    (removeDylibs : List String) : List Binary → Except DyErr (List Binary)
  | [] => .ok []
  | b :: rest =>
    match processBinary idName stubName compilerOk removeDylibs b with
    | .error e => .error e
    | .ok b2 =>
      match processAll idName stubName compilerOk removeDylibs rest with
      | .error e => .error e
      | .ok bs => .ok (b2 :: bs)

/-- Model of `dylibify` (lines 152-435): process every slice, run the fat
stub fusion (`lipo`, outcome `lipoOk`) when any slice produced a thin stub,
and only then serialize.  The `.ok` value is the rewritten image that
`binaries->write(out_path)` (line 433) serializes — reached exactly when
every prior step succeeded, so a failure leaves no output. -/
def dylibify (idName stubName : String) (compilerOk lipoOk : Bool)
    (removeDylibs : List String) (bins : List Binary) : Except DyErr (List Binary) :=
  match processAll idName stubName compilerOk removeDylibs bins with
  | .error e => .error e
  | .ok out =>
    if bins.any (fun b => !(orphanSyms removeDylibs b).isEmpty) && !lipoOk then
      .error .ToolchainFailure
    else .ok out

/-- A successful association-list lookup returns an entry of the list. -/
theorem lookup_mem {α β : Type} [BEq α] [LawfulBEq α] :
    ∀ {l : List (α × β)} {k : α} {v : β}, l.lookup k = some v → (k, v) ∈ l := by
  intro l
  induction l with
  | nil => intro k v h; simp [List.lookup] at h
  | cons p rest ih =>
    intro k v h
    rw [List.lookup] at h
    rcases hkp : k == p.1 with hf | ht
    · rw [hkp] at h
      exact List.mem_cons_of_mem _ (ih h)
    · rw [hkp] at h
      have hk : k = p.1 := by
        have := hkp
        simpa using this
      cases h
      simp [hk]

/-- The keys of `consecEntries idx l` are `l` itself. -/
theorem consec_map_fst :
    ∀ (l : List String) (idx : Int), (consecEntries idx l).map Prod.fst = l := by
  intro l
  induction l with
  | nil => intro idx; rfl
  | cons n rest ih => intro idx; simp [consecEntries, ih]

/-- The values of `consecEntries idx l` are `idx, idx+1, ...` in order. -/
theorem consec_map_snd :
    ∀ (l : List String) (idx : Int),
      (consecEntries idx l).map Prod.snd = intRange idx l.length := by
  intro l
  induction l with
  | nil => intro idx; rfl
  | cons n rest ih => intro idx; simp [consecEntries, intRange, ih]

/-- Looking up the element after a clean portion of the list finds the
ordinal shifted by that portion's length. -/
theorem consec_lookup_append :
    ∀ (A : List String) (x : String) (B : List String) (idx : Int), ¬ x ∈ A →
      (consecEntries idx (A ++ x :: B)).lookup x = some (idx + A.length) := by
  intro A
  induction A with
  | nil =>
    intro x B idx _
    simp [consecEntries, List.lookup]
  | cons a A ih =>
    intro x B idx hx
    have hax : ¬ (x == a) = true := by
      simp only [beq_iff_eq]
      intro h; exact hx (by simp [h])
    have hxA : ¬ x ∈ A := fun h => hx (List.mem_cons_of_mem _ h)
    calc (consecEntries idx ((a :: A) ++ x :: B)).lookup x
        = (consecEntries (idx + 1) (A ++ x :: B)).lookup x := by
          simp only [List.cons_append, consecEntries, List.lookup]
          rw [Bool.eq_false_iff.mpr hax]
          rfl
      _ = some (idx + 1 + A.length) := ih x B (idx + 1) hxA
      _ = some (idx + (A.length + 1 : Nat)) := by push_cast; ring_nf
      _ = some (idx + (a :: A).length) := by simp

/-- Looking up an absent name in a consecutive table fails. -/
theorem consec_lookup_none :
    ∀ (l : List String) (x : String) (idx : Int), ¬ x ∈ l →
      (consecEntries idx l).lookup x = none := by
  intro l
  induction l with
  | nil => intro x idx _; rfl
  | cons a l ih =>
    intro x idx hx
    have hax : ¬ (x == a) = true := by
      simp only [beq_iff_eq]
      intro h; exact hx (by simp [h])
    simp only [consecEntries, List.lookup]
    rw [Bool.eq_false_iff.mpr hax]
    exact ih x (idx + 1) (fun h => hx (List.mem_cons_of_mem _ h))

/-- When the non-id names of the table are pairwise distinct and none of
them was processed before, the source's `emplace` loop produces exactly the
consecutive declaration-order table: no `emplace` call ever hits an
existing key. -/
theorem ordinalEntries_eq_consec :
    ∀ (t : List DylibCmd) (seen : List String) (idx : Int),
      (nonIdNames t).Nodup → (∀ n ∈ nonIdNames t, ¬ n ∈ seen) →
      ordinalEntries seen idx t = consecEntries idx (nonIdNames t) := by
  intro t
  induction t with
  | nil => intro seen idx _ _; rfl
  | cons c rest ih =>
    intro seen idx hnd hdis
    by_cases hid : c.isId
    · have hn : nonIdNames (c :: rest) = nonIdNames rest := by
        simp [nonIdNames, List.filter_cons, hid]
      rw [hn] at hnd hdis
      simpa [ordinalEntries, hid, hn] using ih seen idx hnd hdis
    · have hn : nonIdNames (c :: rest) = c.name :: nonIdNames rest := by
        simp [nonIdNames, List.filter_cons, hid]
      rw [hn] at hnd hdis
      have hseen : ¬ c.name ∈ seen := hdis c.name (by simp)
      have hnotin : ¬ c.name ∈ nonIdNames rest := (List.nodup_cons.mp hnd).1
      have hdis2 : ∀ n ∈ nonIdNames rest, ¬ n ∈ c.name :: seen := by
        intro n hnmem
        simp only [List.mem_cons, not_or]
        exact ⟨fun h => hnotin (h ▸ hnmem), hdis n (List.mem_cons_of_mem _ hnmem)⟩
      simp only [ordinalEntries, if_neg hid, hn, consecEntries]
      rw [if_neg hseen]
      exact congrArg _ (ih (c.name :: seen) (idx + 1) (List.nodup_cons.mp hnd).2 hdis2)

/-- Every ordinal the `emplace` loop assigns lies between the starting
index and the starting index plus the number of non-id entries, duplicates
or not: the counter advances once per non-id entry. -/
theorem ordinalEntries_snd_bounds :
    ∀ (t : List DylibCmd) (seen : List String) (idx : Int) (p : String × Int),
      p ∈ ordinalEntries seen idx t →
      idx ≤ p.2 ∧ p.2 < idx + ((nonIdNames t).length : Int) := by
  intro t
  induction t with
  | nil => intro seen idx p h; simp [ordinalEntries] at h
  | cons c rest ih =>
    intro seen idx p h
    by_cases hid : c.isId
    · have hn : nonIdNames (c :: rest) = nonIdNames rest := by
        simp [nonIdNames, List.filter_cons, hid]
      rw [ordinalEntries, if_pos hid] at h
      rw [hn]
      exact ih seen idx p h
    · have hn : (nonIdNames (c :: rest)).length = (nonIdNames rest).length + 1 := by
        simp [nonIdNames, List.filter_cons, hid]
      rw [ordinalEntries, if_neg hid] at h
      by_cases hdup : c.name ∈ seen
      · rw [if_pos hdup] at h
        have := ih (c.name :: seen) (idx + 1) p h
        rw [hn]; push_cast; push_cast at this; omega
      · rw [if_neg hdup] at h
        rcases List.mem_cons.mp h with heq | htail
        · subst heq; rw [hn]; push_cast; omega
        · have := ih (c.name :: seen) (idx + 1) p htail
          rw [hn]; push_cast; push_cast at this; omega

/-- Splitting `nonIdNames` over concatenation. -/
theorem nonIdNames_append (t u : List DylibCmd) :
    nonIdNames (t ++ u) = nonIdNames t ++ nonIdNames u := by
  simp [nonIdNames, List.filter_append]

/-- An `LC_ID_DYLIB` entry contributes no non-id name. -/
theorem nonIdNames_id (n : String) : nonIdNames [⟨n, true⟩] = [] := rfl

/-- A load-dylib entry contributes its name. -/
theorem nonIdNames_load (n : String) : nonIdNames [⟨n, false⟩] = [n] := rfl

/-- Removing the first non-id command with a given name erases the first
occurrence of that name from the non-id name sequence. -/
theorem nonIdNames_removeFirst :
    ∀ (t : List DylibCmd) (n : String),
      nonIdNames (removeFirstNonId t n) = (nonIdNames t).erase n := by
  intro t
  induction t with
  | nil => intro n; rfl
  | cons c rest ih =>
    intro n
    by_cases hid : c.isId
    · have hcond : (!c.isId && c.name == n) = false := by simp [hid]
      have hn : nonIdNames (c :: rest) = nonIdNames rest := by
        simp [nonIdNames, List.filter_cons, hid]
      rw [removeFirstNonId, hcond]
      simp only [Bool.false_eq_true, if_false]
      have hn2 : nonIdNames (c :: removeFirstNonId rest n) = nonIdNames (removeFirstNonId rest n) := by
        simp [nonIdNames, List.filter_cons, hid]
      rw [hn2, hn, ih]
    · have hn : nonIdNames (c :: rest) = c.name :: nonIdNames rest := by
        simp [nonIdNames, List.filter_cons, hid]
      by_cases heq : c.name == n
      · have hcond : (!c.isId && c.name == n) = true := by simp [hid, heq]
        rw [removeFirstNonId, hcond]
        simp only [if_true]
        rw [hn, List.erase_cons]
        simp [heq]
      · have hcond : (!c.isId && c.name == n) = false := by simp [hid]; simpa using heq
        rw [removeFirstNonId, hcond]
        simp only [Bool.false_eq_true, if_false]
        have hn2 : nonIdNames (c :: removeFirstNonId rest n)
            = c.name :: nonIdNames (removeFirstNonId rest n) := by
          simp [nonIdNames, List.filter_cons, hid]
        rw [hn2, hn, List.erase_cons, if_neg heq, ih]

/-- The removal loop acts on the non-id name sequence as iterated
first-occurrence erasure. -/
theorem nonIdNames_applyRemovals :
    ∀ (rs : List String) (t : List DylibCmd),
      nonIdNames (applyRemovals t rs) = List.foldl List.erase (nonIdNames t) rs := by
  intro rs
  induction rs with
  | nil => intro t; rfl
  | cons r rs ih =>
    intro t
    show nonIdNames (applyRemovals (removeFirstNonId t r) rs) = _
    rw [ih, nonIdNames_removeFirst]
    rfl

/-- Erasing from a duplicate-free list is filtering out the element. -/
theorem erase_eq_filter_ne :
    ∀ (l : List String) (a : String), l.Nodup →
      l.erase a = l.filter (fun x => !(x == a)) := by
  intro l
  induction l with
  | nil => intro a _; rfl
  | cons b l ih =>
    intro a hnd
    rw [List.erase_cons]
    by_cases hba : b == a
    · have hb : b = a := by simpa using hba
      rw [if_pos hba]
      have : ∀ x ∈ l, (fun x => !(x == a)) x = true := by
        intro x hx
        have hxb : x ≠ b := fun h => (List.nodup_cons.mp hnd).1 (h ▸ hx)
        simp [hb ▸ hxb]
      rw [List.filter_cons]
      simp only [hba, Bool.not_true, Bool.false_eq_true, if_false]
      exact (List.filter_eq_self.mpr this).symm
    · rw [if_neg (by simpa using hba)]
      rw [List.filter_cons]
      have : (!(b == a)) = true := by simpa using hba
      rw [this, if_pos rfl]
      rw [ih a (List.nodup_cons.mp hnd).2]

/-- Iterated erasure over a duplicate-free list is a single filter against
membership in the removal list. -/
theorem foldl_erase_eq_filter :
    ∀ (rs : List String) (ns : List String), ns.Nodup →
      List.foldl List.erase ns rs = ns.filter (fun x => !(rs.contains x)) := by
  intro rs
  induction rs with
  | nil =>
    intro ns _
    simp [List.contains]
  | cons r rs ih =>
    intro ns hnd
    show List.foldl List.erase (ns.erase r) rs = _
    have hnd2 : (ns.erase r).Nodup := hnd.erase r
    rw [ih (ns.erase r) hnd2, erase_eq_filter_ne ns r hnd, List.filter_filter]
    apply List.filter_congr
    intro x _
    show (!(rs.contains x) && !(x == r)) = !((r :: rs).contains x)
    rw [List.contains_cons]
    cases hx : x == r <;> cases hr : rs.contains x <;> simp [hx, hr]

/-- The mutated dependency table's non-id names: the original names with
the removal set filtered out, followed by the stub's name exactly when the
orphan set is non-empty. -/
theorem mutate_names (t : List DylibCmd) (rs : List String) (idN stubN : String)
    (orph : Bool) (hnd : (nonIdNames t).Nodup) :
    nonIdNames (mutate t rs idN stubN orph)
      = (nonIdNames t).filter (fun x => !(rs.contains x))
          ++ (if orph then [stubN] else []) := by
  have hpre : nonIdNames (t ++ [⟨idN, true⟩]) = nonIdNames t := by
    rw [nonIdNames_append, nonIdNames_id, List.append_nil]
  have hrem : nonIdNames (applyRemovals (t ++ [⟨idN, true⟩]) rs)
      = (nonIdNames t).filter (fun x => !(rs.contains x)) := by
    rw [nonIdNames_applyRemovals, hpre, foldl_erase_eq_filter rs _ hnd]
  cases orph with
  | false => simpa [mutate] using hrem
  | true =>
    simp only [mutate, if_true]
    rw [nonIdNames_append, hrem, nonIdNames_load]

/-- When every original entry either survives or was removed, the
old-to-new loop succeeds and produces exactly one entry per original
entry, keyed by the old ordinal. -/
theorem origToNew_eq_map :
    ∀ (om nm : List (String × Int)) (rs : List String) (stubN : String),
      (∀ p ∈ om, (nm.lookup p.1).isSome = true ∨ rs.contains p.1 = true) →
      origToNew nm rs stubN om = some (om.map (fun p => (p.2, resolveNew nm stubN p.1))) := by
  intro om
  induction om with
  | nil => intro nm rs stubN _; rfl
  | cons p rest ih =>
    intro nm rs stubN h
    have hp := h p (by simp)
    have hrest := fun q hq => h q (List.mem_cons_of_mem _ hq)
    obtain ⟨n, o⟩ := p
    rw [origToNew]
    cases hl : nm.lookup n with
    | some v =>
      rw [ih nm rs stubN hrest]
      simp [resolveNew, hl]
    | none =>
      have hc : rs.contains n = true := by
        rcases hp with h1 | h1
        · rw [hl] at h1; simp at h1
        · exact h1
      rw [hc, if_pos rfl, ih nm rs stubN hrest]
      simp [resolveNew, hl]

/-- The keys of a successfully built old-to-new map are exactly the
original ordinals, in order. -/
theorem origToNew_fst :
    ∀ (om nm : List (String × Int)) (rs : List String) (stubN : String)
      (m : List (Int × Int)),
      origToNew nm rs stubN om = some m → m.map Prod.fst = om.map Prod.snd := by
  intro om
  induction om with
  | nil =>
    intro nm rs stubN m h
    cases h; rfl
  | cons p rest ih =>
    intro nm rs stubN m h
    obtain ⟨n, o⟩ := p
    rw [origToNew] at h
    cases hl : nm.lookup n with
    | some v =>
      rw [hl] at h
      rcases Option.map_eq_some'.mp h with ⟨m', hm', rfl⟩
      simpa using ih nm rs stubN m' hm'
    | none =>
      rw [hl] at h
      by_cases hc : rs.contains n
      · rw [hc, if_pos rfl] at h
        rcases Option.map_eq_some'.mp h with ⟨m', hm', rfl⟩
        simpa using ih nm rs stubN m' hm'
      · rw [Bool.eq_false_iff.mpr hc] at h
        simp at h

/-- Every value of a successfully built old-to-new map is either the
value-initialized 0 of `std::map::operator[]` or one of the recomputed
table's ordinals. -/
theorem origToNew_snd_cases :
    ∀ (om nm : List (String × Int)) (rs : List String) (stubN : String)
      (m : List (Int × Int)),
      origToNew nm rs stubN om = some m →
      ∀ q ∈ m, q.2 = 0 ∨ ∃ p, p ∈ nm ∧ q.2 = p.2 := by
  intro om
  induction om with
  | nil =>
    intro nm rs stubN m h q hq
    cases h; simp at hq
  | cons p rest ih =>
    intro nm rs stubN m h q hq
    obtain ⟨n, o⟩ := p
    rw [origToNew] at h
    cases hl : nm.lookup n with
    | some v =>
      rw [hl] at h
      rcases Option.map_eq_some'.mp h with ⟨m', hm', rfl⟩
      rcases List.mem_cons.mp hq with rfl | hq2
      · exact Or.inr ⟨(n, v), lookup_mem hl, rfl⟩
      · exact ih nm rs stubN m' hm' q hq2
    | none =>
      rw [hl] at h
      by_cases hc : rs.contains n
      · rw [hc, if_pos rfl] at h
        rcases Option.map_eq_some'.mp h with ⟨m', hm', rfl⟩
        rcases List.mem_cons.mp hq with rfl | hq2
        · show stubOrdinal nm stubN = 0 ∨ _
          unfold stubOrdinal
          cases hs : nm.lookup stubN with
          | some s => exact Or.inr ⟨(stubN, s), lookup_mem hs, rfl⟩
          | none => exact Or.inl rfl
        · exact ih nm rs stubN m' hm' q hq2
      · rw [Bool.eq_false_iff.mpr hc] at h
        simp at h

/-- Looking up an old ordinal in the old-to-new map, when the old
ordinals are pairwise distinct, finds the resolution of that ordinal's
library name. -/
theorem lookup_map_resolve :
    ∀ (om : List (String × Int)) (f : String → Int) (n : String) (o : Int),
      (om.map Prod.snd).Nodup → (n, o) ∈ om →
      (om.map (fun p => (p.2, f p.1))).lookup o = some (f n) := by
  intro om
  induction om with
  | nil => intro f n o _ h; simp at h
  | cons p rest ih =>
    intro f n o hnd hmem
    obtain ⟨n1, o1⟩ := p
    simp only [List.map_cons, List.lookup]
    by_cases ho : o == o1
    · have hoe : o = o1 := by simpa using ho
      rcases List.mem_cons.mp hmem with heq | htail
      · cases heq
        rw [ho]
      · exfalso
        have : o1 ∈ rest.map Prod.snd := by
          subst hoe
          exact List.mem_map.mpr ⟨(n, o), htail, rfl⟩
        exact (List.nodup_cons.mp (by simpa using hnd)).1 this
    · rw [Bool.eq_false_iff.mpr ho]
      rcases List.mem_cons.mp hmem with heq | htail
      · cases heq; simp at ho
      · exact ih f n o (List.nodup_cons.mp (by simpa using hnd)).2 htail

/-- With distinct non-id names and a fresh stub name, the mutated table's
non-id names are again pairwise distinct. -/
theorem mutate_names_nodup (t : List DylibCmd) (rs : List String) (idN stubN : String)
    (orph : Bool) (hnd : (nonIdNames t).Nodup) (hstub : ¬ stubN ∈ nonIdNames t) :
    (nonIdNames (mutate t rs idN stubN orph)).Nodup := by
  rw [mutate_names t rs idN stubN orph hnd]
  cases orph with
  | false => simpa using hnd.filter _
  | true =>
    simp only [if_true]
    refine List.Nodup.append (hnd.filter _) (by simp) ?_
    intro a ha hb
    have ha2 : a ∈ nonIdNames t := List.mem_of_mem_filter ha
    have hb2 : a = stubN := by simpa using hb
    exact hstub (hb2 ▸ ha2)

/-- With distinct non-id names, the source's ordinal table is the
consecutive declaration-order table starting at 1. -/
theorem buildOrdinalMap_eq_consec (t : List DylibCmd) (hnd : (nonIdNames t).Nodup) :
    buildOrdinalMap t = consecEntries 1 (nonIdNames t) :=
  ordinalEntries_eq_consec t [] 1 hnd (by simp)

/-- Position-indexed lookup in a consecutive table over a duplicate-free
name list. -/
theorem consec_lookup_get :
    ∀ (l : List String), l.Nodup → ∀ (i : Nat) (hi : i < l.length) (idx : Int),
      (consecEntries idx l).lookup (l.get ⟨i, hi⟩) = some (idx + i) := by
  intro l hnd i hi idx
  set x := l.get ⟨i, hi⟩ with hx
  have hdrop : l.drop i = x :: l.drop (i + 1) := List.drop_eq_get_cons hi
  have hl : l = l.take i ++ x :: l.drop (i + 1) := by
    rw [← hdrop]; exact (List.take_append_drop i l).symm
  have hlen : (l.take i).length = i := by rw [List.length_take]; omega
  have hnd2 : (l.take i ++ x :: l.drop (i + 1)).Nodup := hl ▸ hnd
  have hnotin : ¬ x ∈ l.take i := fun hmem =>
    (List.disjoint_of_nodup_append hnd2) hmem (List.mem_cons_self _ _)
  calc (consecEntries idx l).lookup x
      = (consecEntries idx (l.take i ++ x :: l.drop (i + 1))).lookup x := by
        conv_lhs => rw [hl]
    _ = some (idx + (l.take i).length) :=
        consec_lookup_append _ _ _ idx hnotin
    _ = some (idx + i) := by rw [hlen]

/-- Position-indexed lookup in the consecutive table of a filtered
duplicate-free name list: the surviving element's ordinal is the start
index plus the number of surviving elements before it. -/
theorem consec_lookup_filter :
    ∀ (l : List String) (p : String → Bool), l.Nodup →
      ∀ (i : Nat) (hi : i < l.length), p (l.get ⟨i, hi⟩) = true → ∀ (idx : Int),
      (consecEntries idx (l.filter p)).lookup (l.get ⟨i, hi⟩)
        = some (idx + ((l.take i).filter p).length) := by
  intro l p hnd i hi hp idx
  set x := l.get ⟨i, hi⟩ with hx
  have hdrop : l.drop i = x :: l.drop (i + 1) := List.drop_eq_get_cons hi
  have hl : l = l.take i ++ x :: l.drop (i + 1) := by
    rw [← hdrop]; exact (List.take_append_drop i l).symm
  have hnd2 : (l.take i ++ x :: l.drop (i + 1)).Nodup := hl ▸ hnd
  have hnotin : ¬ x ∈ l.take i := fun hmem =>
    (List.disjoint_of_nodup_append hnd2) hmem (List.mem_cons_self _ _)
  have hnotin2 : ¬ x ∈ (l.take i).filter p :=
    fun hmem => hnotin (List.mem_of_mem_filter hmem)
  have hfl : l.filter p = (l.take i).filter p ++ x :: (l.drop (i + 1)).filter p := by
    conv_lhs => rw [hl]
    rw [List.filter_append, List.filter_cons, hp]
    simp
  rw [hfl]
  exact consec_lookup_append _ _ _ idx hnotin2

/-- Reading the packed ordinal back after writing an in-range value
returns that value. -/
theorem get_set_ordinal (d o : Nat) (ho : o < 256) :
    get_library_ordinal (set_library_ordinal d o) = o := by
  unfold get_library_ordinal set_library_ordinal
  omega

/-- The `uint8` narrowing of an `int32` ordinal is below 256. -/
theorem intToUInt8_lt (v : Int) : intToUInt8 v < 256 := by
  unfold intToUInt8
  have h1 := Int.emod_nonneg v (by norm_num : (256 : Int) ≠ 0)
  have h2 := Int.emod_lt_of_pos v (by norm_num : (0 : Int) < 256)
  omega

/-- A present name has a successful lookup in the consecutive table. -/
theorem consec_lookup_isSome :
    ∀ (l : List String) (x : String) (idx : Int), x ∈ l →
      ((consecEntries idx l).lookup x).isSome = true := by
  intro l
  induction l with
  | nil => intro x idx h; simp at h
  | cons a l ih =>
    intro x idx h
    rw [consecEntries]
    cases hxa : x == a
    · show (List.lookup x ((a, idx) :: consecEntries (idx + 1) l)).isSome = true
      rw [List.lookup, hxa]
      have hx : x ∈ l := by
        rcases List.mem_cons.mp h with h1 | h1
        · exact absurd (by simp [h1] : (x == a) = true) (by simp [hxa])
        · exact h1
      exact ih x (idx + 1) hx
    · show (List.lookup x ((a, idx) :: consecEntries (idx + 1) l)).isSome = true
      rw [List.lookup, hxa]
      rfl

/-- Erasing distinct present elements one by one shortens the list by one
each. -/
theorem foldl_erase_length :
    ∀ (rs ns : List String), ns.Nodup → rs.Nodup → (∀ r ∈ rs, r ∈ ns) →
      (List.foldl List.erase ns rs).length = ns.length - rs.length := by
  intro rs
  induction rs with
  | nil => intro ns _ _ _; simp
  | cons r rs ih =>
    intro ns hns hrs hsub
    have hrmem : r ∈ ns := hsub r (by simp)
    have htail : ∀ x ∈ rs, x ∈ ns.erase r := by
      intro x hx
      have hxr : x ≠ r := fun h => (List.nodup_cons.mp hrs).1 (h ▸ hx)
      exact (List.mem_erase_of_ne hxr).mpr (hsub x (List.mem_cons_of_mem _ hx))
    show (List.foldl List.erase (ns.erase r) rs).length = _
    rw [ih (ns.erase r) (hns.erase r) (List.nodup_cons.mp hrs).2 htail,
      List.length_erase_of_mem hrmem]
    have hpos := List.length_pos_of_mem hrmem
    simp only [List.length_cons]
    omega

/-- A Boolean predicate and its negation partition a list's length. -/
theorem countP_add_countP_not (p : String → Bool) :
    ∀ l : List String, l.countP p + l.countP (fun x => !(p x)) = l.length := by
  intro l
  induction l with
  | nil => rfl
  | cons a l ih =>
    rw [List.countP_cons, List.countP_cons, List.length_cons]
    cases hpa : p a <;> simp [hpa] <;> omega

/-- Bounds of membership in an integer range. -/
theorem intRange_mem_bounds :
    ∀ (n : Nat) (a x : Int), x ∈ intRange a n → a ≤ x ∧ x < a + n := by
  intro n
  induction n with
  | zero => intro a x h; simp [intRange] at h
  | succ k ih =>
    intro a x h
    rw [intRange] at h
    rcases List.mem_cons.mp h with rfl | h2
    · refine ⟨le_refl x, ?_⟩
      push_cast
      omega
    · have := ih (a + 1) x h2
      push_cast at this ⊢
      omega

/-- An integer range has no duplicates. -/
theorem intRange_nodup : ∀ (n : Nat) (a : Int), (intRange a n).Nodup := by
  intro n
  induction n with
  | zero => intro a; simp [intRange]
  | succ k ih =>
    intro a
    rw [intRange]
    refine List.nodup_cons.mpr ⟨?_, ih (a + 1)⟩
    intro hmem
    have := intRange_mem_bounds k (a + 1) a hmem
    omega

/-- C8: for every 16-bit legacy descriptor and every 8-bit ordinal,
`set_library_ordinal` leaves the low descriptor byte unchanged and
`get_library_ordinal` reads the written ordinal back. -/
theorem claim_C8_accessor_roundtrip (d o : Nat) (hd : d < 65536) (ho : o < 256) :
    get_library_ordinal (set_library_ordinal d o) = o
    ∧ set_library_ordinal d o % 256 = d % 256 := by
  unfold get_library_ordinal set_library_ordinal
  omega

/-- Witness for C8 at the concrete descriptor 0xABCD and ordinal 7. -/
theorem claim_C8_accessor_roundtrip_witness :
    43981 < 65536 ∧ 7 < 256
    ∧ (get_library_ordinal (set_library_ordinal 43981 7) = 7
       ∧ set_library_ordinal 43981 7 % 256 = 43981 % 256) :=
  ⟨by decide, by decide, claim_C8_accessor_roundtrip 43981 7 (by decide) (by decide)⟩

/-- C9: when a legacy-origin symbol with a non-sentinel packed ordinal is
rewritten, the looked-up 32-bit new ordinal is narrowed to 8 bits before
packing, so the ordinal actually stored is the new ordinal modulo 256; a
new ordinal above 255 is silently wrapped (the rewrite still succeeds)
rather than rejected. -/
theorem claim_C9_legacy_narrowing (m : List (Int × Int)) (desc : Nat) (v : Int)
    (h0 : get_library_ordinal desc ≠ SELF_LIBRARY_ORDINAL)
    (h1 : get_library_ordinal desc ≠ DYNAMIC_LOOKUP_ORDINAL)
    (h2 : get_library_ordinal desc ≠ EXECUTABLE_ORDINAL)
    (hl : m.lookup ((get_library_ordinal desc : Nat) : Int) = some v) :
    rewriteLegacy m desc = some (set_library_ordinal desc (intToUInt8 v))
    ∧ get_library_ordinal (set_library_ordinal desc (intToUInt8 v)) = (v % 256).toNat
    ∧ (256 ≤ v → (((v % 256).toNat : Nat) : Int) ≠ v) := by
  have hcond : ¬(get_library_ordinal desc = SELF_LIBRARY_ORDINAL ∨
      get_library_ordinal desc = DYNAMIC_LOOKUP_ORDINAL ∨
      get_library_ordinal desc = EXECUTABLE_ORDINAL) := by
    tauto
  have hemod1 := Int.emod_nonneg v (by norm_num : (256 : Int) ≠ 0)
  have hemod2 := Int.emod_lt_of_pos v (by norm_num : (0 : Int) < 256)
  refine ⟨?_, ?_, ?_⟩
  · unfold rewriteLegacy
    rw [if_neg hcond, hl]
  · rw [get_set_ordinal desc _ (intToUInt8_lt v)]
    rfl
  · intro hv
    have : (((v % 256).toNat : Nat) : Int) = v % 256 := Int.toNat_of_nonneg hemod1
    omega

/-- Witness for C9: new ordinal 300 for old ordinal 5 is stored as
300 mod 256 = 44 in the descriptor's high byte. -/
theorem claim_C9_legacy_narrowing_witness :
    rewriteLegacy [((5 : Int), (300 : Int))] 1287
      = some (set_library_ordinal 1287 (intToUInt8 300))
    ∧ get_library_ordinal (set_library_ordinal 1287 (intToUInt8 300))
      = ((300 : Int) % 256).toNat
    ∧ (256 ≤ (300 : Int) → ((((300 : Int) % 256).toNat : Nat) : Int) ≠ 300) :=
  claim_C9_legacy_narrowing [((5 : Int), (300 : Int))] 1287 300
    (by decide) (by decide) (by decide) (by decide)

/-- C2 (check of the code): on the dependency table `[libA]` with nothing
removed, the old-to-new ordinal map is `[(1, 1)]`.  The legacy symtab
rewrite passes all three sentinel ordinals (0x00, 0xfe, 0xff in the high
descriptor byte) through bit-identically, but the modern binding-record
rewrite (lines 382-385) performs no sentinel check: it looks the sentinel
up in the old-to-new map, whose keys are only the real ordinals 1..N, so
`std::map::at` fails for every sentinel value of that encoding instead of
passing it through. -/
theorem claim_C2_modern_sentinel_lookup_fails :
    ordinalRemap [⟨"libA", false⟩] [] "id" "stub" false = some [(1, 1)]
    ∧ rewriteLegacy [((1 : Int), (1 : Int))] 7 = some 7
    ∧ rewriteLegacy [((1 : Int), (1 : Int))] 65031 = some 65031
    ∧ rewriteLegacy [((1 : Int), (1 : Int))] 65287 = some 65287
    ∧ rewriteModern [((1 : Int), (1 : Int))] 0 = none
    ∧ rewriteModern [((1 : Int), (1 : Int))] (-1) = none
    ∧ rewriteModern [((1 : Int), (1 : Int))] (-2) = none := by
  refine ⟨?_, ?_, ?_, ?_, ?_, ?_, ?_⟩ <;> decide

/-- C10: with a duplicated non-self dependency name, only the first
occurrence receives an ordinal-table entry while the position counter
advances for both occurrences, so the duplicate's positional ordinal 2 is
a value of no name-to-ordinal table entry and a key of no old-to-new map
entry; the declaration-order bijection onto 1..N fails for such tables
(the non-self names are not pairwise distinct), e.g. on
`[a, a, b]` the table is `[(a, 1), (b, 3)]` and misses ordinal 2. -/
theorem claim_C10_duplicate_names :
    (∀ (n : String) (rest : List DylibCmd),
      (buildOrdinalMap (⟨n, false⟩ :: ⟨n, false⟩ :: rest)).lookup n = some 1
      ∧ (∀ p ∈ buildOrdinalMap (⟨n, false⟩ :: ⟨n, false⟩ :: rest), p.2 ≠ 2)
      ∧ (∀ (nm : List (String × Int)) (rs : List String) (stubN : String)
          (m : List (Int × Int)),
          origToNew nm rs stubN (buildOrdinalMap (⟨n, false⟩ :: ⟨n, false⟩ :: rest))
            = some m → ∀ q ∈ m, q.1 ≠ 2)
      ∧ ¬ (nonIdNames (⟨n, false⟩ :: ⟨n, false⟩ :: rest)).Nodup)
    ∧ buildOrdinalMap [⟨"a", false⟩, ⟨"a", false⟩, ⟨"b", false⟩] = [("a", 1), ("b", 3)]
    ∧ (buildOrdinalMap [⟨"a", false⟩, ⟨"a", false⟩, ⟨"b", false⟩]).map Prod.snd
        ≠ intRange 1 (nonIdNames [⟨"a", false⟩, ⟨"a", false⟩, ⟨"b", false⟩]).length := by
  refine ⟨?_, by decide, by decide⟩
  intro n rest
  have hshape : buildOrdinalMap (⟨n, false⟩ :: ⟨n, false⟩ :: rest)
      = (n, 1) :: ordinalEntries [n, n] 3 rest := by
    show ordinalEntries [] 1 _ = _
    rw [ordinalEntries, if_neg (by simp), if_neg (by simp)]
    rw [ordinalEntries, if_neg (by simp), if_pos (by simp)]
    norm_num
  refine ⟨?_, ?_, ?_, ?_⟩
  · rw [hshape]
    simp [List.lookup]
  · intro p hp
    rw [hshape] at hp
    rcases List.mem_cons.mp hp with rfl | htail
    · simp
    · have hb := ordinalEntries_snd_bounds rest [n, n] 3 p htail
      omega
  · intro nm rs stubN m hm q hq
    have hfst := origToNew_fst _ nm rs stubN m hm
    have hq1 : q.1 ∈ (buildOrdinalMap (⟨n, false⟩ :: ⟨n, false⟩ :: rest)).map Prod.snd := by
      rw [← hfst]
      exact List.mem_map.mpr ⟨q, hq, rfl⟩
    rw [hshape] at hq1
    rcases (by simpa using hq1 :
        q.1 = 1 ∨ ∃ a, (a, q.1) ∈ ordinalEntries [n, n] 3 rest) with h1 | ⟨a, h2⟩
    · omega
    · have hb := ordinalEntries_snd_bounds rest [n, n] 3 (a, q.1) h2
      simp at hb
      omega
  · have : nonIdNames (⟨n, false⟩ :: ⟨n, false⟩ :: rest)
        = n :: n :: nonIdNames rest := by
      simp [nonIdNames, List.filter_cons]
    rw [this]
    simp

/-- C3: with pairwise-distinct non-self names, the ordinal assignment is
the consecutive declaration-order table: its keys are exactly the non-self
names in declaration order, its values are exactly `1..N` in order, and
the i-th declared name receives ordinal `i+1` — a declaration-order
bijection onto `1..N`.  This holds both for the snapshot taken before
mutation and for the table recomputed after mutation. -/
theorem claim_C3_declaration_order_bijection (t : List DylibCmd) (rs : List String)
    (idN stubN : String) (orph : Bool)
    (hnd : (nonIdNames t).Nodup)
    (hnd2 : (nonIdNames (mutate t rs idN stubN orph)).Nodup) :
    (buildOrdinalMap t = consecEntries 1 (nonIdNames t)
     ∧ (buildOrdinalMap t).map Prod.fst = nonIdNames t
     ∧ (buildOrdinalMap t).map Prod.snd = intRange 1 (nonIdNames t).length
     ∧ ∀ (i : Nat) (hi : i < (nonIdNames t).length),
         (buildOrdinalMap t).lookup ((nonIdNames t).get ⟨i, hi⟩) = some (1 + i))
    ∧ (buildOrdinalMap (mutate t rs idN stubN orph)
         = consecEntries 1 (nonIdNames (mutate t rs idN stubN orph))
     ∧ (buildOrdinalMap (mutate t rs idN stubN orph)).map Prod.fst
         = nonIdNames (mutate t rs idN stubN orph)
     ∧ (buildOrdinalMap (mutate t rs idN stubN orph)).map Prod.snd
         = intRange 1 (nonIdNames (mutate t rs idN stubN orph)).length
     ∧ ∀ (i : Nat) (hi : i < (nonIdNames (mutate t rs idN stubN orph)).length),
         (buildOrdinalMap (mutate t rs idN stubN orph)).lookup
             ((nonIdNames (mutate t rs idN stubN orph)).get ⟨i, hi⟩) = some (1 + i)) := by
  have pack : ∀ (u : List DylibCmd), (nonIdNames u).Nodup →
      buildOrdinalMap u = consecEntries 1 (nonIdNames u)
      ∧ (buildOrdinalMap u).map Prod.fst = nonIdNames u
      ∧ (buildOrdinalMap u).map Prod.snd = intRange 1 (nonIdNames u).length
      ∧ ∀ (i : Nat) (hi : i < (nonIdNames u).length),
          (buildOrdinalMap u).lookup ((nonIdNames u).get ⟨i, hi⟩) = some (1 + i) := by
    intro u hu
    have he := buildOrdinalMap_eq_consec u hu
    refine ⟨he, ?_, ?_, ?_⟩
    · rw [he]; exact consec_map_fst _ _
    · rw [he]; exact consec_map_snd _ _
    · intro i hi
      rw [he]
      exact consec_lookup_get _ hu i hi 1
  exact ⟨pack t hnd, pack _ hnd2⟩

/-- Witness for C3 on the table `[libA, libB]` with `libB` removed. -/
theorem claim_C3_declaration_order_bijection_witness :
    (nonIdNames [⟨"libA", false⟩, ⟨"libB", false⟩]).Nodup
    ∧ (nonIdNames (mutate [⟨"libA", false⟩, ⟨"libB", false⟩] ["libB"] "id" "S" false)).Nodup
    ∧ buildOrdinalMap [⟨"libA", false⟩, ⟨"libB", false⟩]
        = consecEntries 1 (nonIdNames [⟨"libA", false⟩, ⟨"libB", false⟩]) :=
  ⟨by decide, by decide,
   (claim_C3_declaration_order_bijection [⟨"libA", false⟩, ⟨"libB", false⟩]
     ["libB"] "id" "S" false (by decide) (by decide)).1.1⟩

/-- C5: removing dependencies no symbol references (empty OrphanSet): the
mutated table is the original one with the removed names filtered out (in
particular no stub entry appears), it is shorter by exactly the number of
removed dependencies, the old-to-new map construction succeeds, and every
surviving dependency's new ordinal is its old ordinal minus the number of
removed entries that preceded it in declaration order. -/
theorem claim_C5_remove_without_orphans (t : List DylibCmd) (rs : List String)
    (idN stubN : String)
    (hnd : (nonIdNames t).Nodup) (hrs : rs.Nodup)
    (hsub : ∀ r ∈ rs, r ∈ nonIdNames t) :
    nonIdNames (mutate t rs idN stubN false)
        = (nonIdNames t).filter (fun x => !(rs.contains x))
    ∧ (nonIdNames (mutate t rs idN stubN false)).length
        = (nonIdNames t).length - rs.length
    ∧ (∃ m, ordinalRemap t rs idN stubN false = some m)
    ∧ (∀ (i : Nat) (hi : i < (nonIdNames t).length),
        rs.contains ((nonIdNames t).get ⟨i, hi⟩) = false →
        (buildOrdinalMap t).lookup ((nonIdNames t).get ⟨i, hi⟩) = some (1 + i)
        ∧ (buildOrdinalMap (mutate t rs idN stubN false)).lookup
            ((nonIdNames t).get ⟨i, hi⟩)
          = some (1 + (i : Int)
              - (((nonIdNames t).take i).countP (fun x => rs.contains x) : Int))) := by
  have ha : nonIdNames (mutate t rs idN stubN false)
      = (nonIdNames t).filter (fun x => !(rs.contains x)) := by
    have := mutate_names t rs idN stubN false hnd
    simpa using this
  have hfold : nonIdNames (mutate t rs idN stubN false)
      = List.foldl List.erase (nonIdNames t) rs := by
    show nonIdNames (applyRemovals (t ++ [⟨idN, true⟩]) rs) = _
    rw [nonIdNames_applyRemovals, nonIdNames_append, nonIdNames_id, List.append_nil]
  have hndf : (nonIdNames (mutate t rs idN stubN false)).Nodup := by
    rw [ha]; exact hnd.filter _
  have hom := buildOrdinalMap_eq_consec t hnd
  have hnm := buildOrdinalMap_eq_consec _ hndf
  refine ⟨ha, ?_, ?_, ?_⟩
  · rw [hfold]
    exact foldl_erase_length rs (nonIdNames t) hnd hrs hsub
  · refine ⟨_, origToNew_eq_map (buildOrdinalMap t) _ rs stubN ?_⟩
    intro q hq
    have hq1 : q.1 ∈ nonIdNames t := by
      have : q.1 ∈ (buildOrdinalMap t).map Prod.fst := List.mem_map.mpr ⟨q, hq, rfl⟩
      rw [hom, consec_map_fst] at this
      exact this
    cases hc : rs.contains q.1
    · left
      rw [hnm, ha]
      exact consec_lookup_isSome _ q.1 1
        (List.mem_filter.mpr ⟨hq1, by rw [hc]; rfl⟩)
    · right; rfl
  · intro i hi hcont
    constructor
    · rw [hom]
      exact consec_lookup_get _ hnd i hi 1
    · rw [hnm, ha]
      have hp : (fun x => !(rs.contains x)) ((nonIdNames t).get ⟨i, hi⟩) = true := by
        show (!(rs.contains ((nonIdNames t).get ⟨i, hi⟩))) = true
        rw [hcont]
        rfl
      rw [consec_lookup_filter (nonIdNames t) _ hnd i hi hp 1]
      have h1 : (((nonIdNames t).take i).filter (fun x => !(rs.contains x))).length
          = ((nonIdNames t).take i).countP (fun x => !(rs.contains x)) :=
        (List.countP_eq_length_filter _ _).symm
      have h2 := countP_add_countP_not (fun x => rs.contains x) ((nonIdNames t).take i)
      have h3 : ((nonIdNames t).take i).length = i := by
        rw [List.length_take]; omega
      rw [h1]
      congr 1
      rw [h3] at h2
      omega

/-- Witness for C5: removing `libA` from `[libA, libB]` with no orphaned
symbols leaves one dependency and shifts `libB` from ordinal 2 to 1. -/
theorem claim_C5_remove_without_orphans_witness :
    (nonIdNames [⟨"libA", false⟩, ⟨"libB", false⟩]).Nodup
    ∧ (["libA"] : List String).Nodup
    ∧ (∀ r ∈ (["libA"] : List String), r ∈ nonIdNames [⟨"libA", false⟩, ⟨"libB", false⟩])
    ∧ (nonIdNames (mutate [⟨"libA", false⟩, ⟨"libB", false⟩] ["libA"] "id" "S" false)).length
        = (nonIdNames [⟨"libA", false⟩, ⟨"libB", false⟩]).length
            - (["libA"] : List String).length :=
  ⟨by decide, by decide, by decide,
   (claim_C5_remove_without_orphans [⟨"libA", false⟩, ⟨"libB", false⟩] ["libA"]
     "id" "S" (by decide) (by decide) (by decide)).2.1⟩

/-- Conditions that necessarily held in a binary whose per-binary pass
succeeded: every explicitly requested removal name was present, and if any
symbol was orphaned the compiler invocation succeeded. -/
theorem processBinary_ok_conditions (idN stubN : String) (ck : Bool)
    (rd : List String) (b b2 : Binary)
    (h : processBinary idN stubN ck rd b = .ok b2) :
    (∀ d ∈ rd, (nonIdNames b.libs).contains d = true)
    ∧ ((orphanSyms rd b).isEmpty = false → ck = true) := by
  simp only [processBinary] at h
  by_cases hany : rd.any (fun d => !((nonIdNames b.libs).contains d)) = true
  · rw [if_pos hany] at h
    simp at h
  · rw [if_neg hany] at h
    have hall : ∀ d ∈ rd, (nonIdNames b.libs).contains d = true := by
      intro d hd
      cases hc2 : (nonIdNames b.libs).contains d
      · exfalso
        apply hany
        exact List.any_eq_true.mpr ⟨d, hd, by rw [hc2]; rfl⟩
      · rfl
    refine ⟨hall, ?_⟩
    intro horph
    cases hot : origToNew (buildOrdinalMap (mutate b.libs (dedupFirst [] rd) idN stubN
        (!(orphanSyms rd b).isEmpty))) (dedupFirst [] rd) stubN
        (buildOrdinalMap b.libs) with
    | none => rw [hot] at h; simp at h
    | some m =>
      rw [hot] at h
      simp only [] at h
      cases hbm : rewriteAllModern m b.bindings with
      | none => rw [hbm] at h; simp at h
      | some bs =>
        rw [hbm] at h
        simp only [] at h
        cases hlm : rewriteAllLegacy m b.symtab with
        | none => rw [hlm] at h; simp at h
        | some st =>
          rw [hlm] at h
          simp only [] at h
          rw [if_neg (by simp [horph])] at h
          cases hcs : create_stub_objc (orphanSyms rd b) with
          | none => rw [hcs] at h; simp at h
          | some src =>
            rw [hcs] at h
            simp only [] at h
            by_cases hck : ck = true
            · exact hck
            · rw [if_neg hck] at h
              simp at h

/-- Conditions that necessarily held in every binary when the whole
sequential pass succeeded. -/
theorem processAll_ok_conditions :
    ∀ (bins : List Binary) (idN stubN : String) (ck : Bool) (rd : List String)
      (out : List Binary),
      processAll idN stubN ck rd bins = .ok out →
      ∀ b ∈ bins, (∀ d ∈ rd, (nonIdNames b.libs).contains d = true)
        ∧ ((orphanSyms rd b).isEmpty = false → ck = true) := by
  intro bins
  induction bins with
  | nil => intro idN stubN ck rd out _ b hb; simp at hb
  | cons b0 rest ih =>
    intro idN stubN ck rd out h b hb
    rw [processAll] at h
    cases hpb : processBinary idN stubN ck rd b0 with
    | error e => rw [hpb] at h; simp at h
    | ok b2 =>
      rw [hpb] at h
      cases hpa : processAll idN stubN ck rd rest with
      | error e => rw [hpa] at h; simp at h
      | ok bs =>
        rcases List.mem_cons.mp hb with rfl | hb2
        · exact processBinary_ok_conditions idN stubN ck rd b b2 hpb
        · exact ih idN stubN ck rd bs hpa b hb2

/-- C6: the first failing step aborts the whole conversion before the
image is serialized (the model's `.ok` value is what the final
`binaries->write` serializes, so an `.error` run writes nothing): an
explicitly requested removal name absent from the pre-mutation table
yields `DependencyNotFound`; a failed compiler invocation with a non-empty
orphan set yields `ToolchainFailure`; and a run that reaches serialization
necessarily had every removal name present and, when any symbol was
orphaned, a successful compiler and fusion step. -/
theorem claim_C6_first_failure_aborts :
    (∀ (idN stubN : String) (ck lk : Bool) (rd : List String)
        (b : Binary) (rest : List Binary) (d : String),
        d ∈ rd → (nonIdNames b.libs).contains d = false →
        dylibify idN stubN ck lk rd (b :: rest) = .error .DependencyNotFound)
    ∧ (∀ (idN stubN : String) (lk : Bool) (rd : List String) (b : Binary)
        (m : List (Int × Int)) (bs : List Int) (st : List Nat) (src : String),
        (∀ d ∈ rd, (nonIdNames b.libs).contains d = true) →
        (orphanSyms rd b).isEmpty = false →
        origToNew (buildOrdinalMap (mutate b.libs (dedupFirst [] rd) idN stubN
            (!(orphanSyms rd b).isEmpty))) (dedupFirst [] rd) stubN
            (buildOrdinalMap b.libs) = some m →
        rewriteAllModern m b.bindings = some bs →
        rewriteAllLegacy m b.symtab = some st →
        create_stub_objc (orphanSyms rd b) = some src →
        dylibify idN stubN false lk rd [b] = .error .ToolchainFailure)
    ∧ (∀ (idN stubN : String) (ck lk : Bool) (rd : List String) (bins : List Binary),
        (dylibify idN stubN ck lk rd bins).isOk = true →
        (∀ b ∈ bins, ∀ d ∈ rd, (nonIdNames b.libs).contains d = true)
        ∧ ((∃ b ∈ bins, (orphanSyms rd b).isEmpty = false) →
            ck = true ∧ lk = true)) := by
  refine ⟨?_, ?_, ?_⟩
  · intro idN stubN ck lk rd b rest d hd hcont
    have hany : rd.any (fun x => !((nonIdNames b.libs).contains x)) = true :=
      List.any_eq_true.mpr ⟨d, hd, by rw [hcont]; rfl⟩
    have hpb : processBinary idN stubN ck rd b = .error .DependencyNotFound := by
      simp only [processBinary]
      rw [if_pos hany]
    show dylibify idN stubN ck lk rd (b :: rest) = _
    unfold dylibify processAll
    rw [hpb]
  · intro idN stubN lk rd b m bs st src hall horph hot hbm hlm hcs
    have hany : rd.any (fun x => !((nonIdNames b.libs).contains x)) = false := by
      cases hq : rd.any (fun x => !((nonIdNames b.libs).contains x))
      · rfl
      · exfalso
        rcases List.any_eq_true.mp hq with ⟨x, hx, hpx⟩
        rw [hall x hx] at hpx
        simp at hpx
    have hpb : processBinary idN stubN false rd b = .error .ToolchainFailure := by
      simp only [processBinary]
      rw [if_neg (by rw [hany]; simp)]
      rw [hot]
      simp only []
      rw [hbm]
      simp only []
      rw [hlm]
      simp only []
      rw [if_neg (by simp [horph])]
      rw [hcs]
      rfl
    show dylibify idN stubN false lk rd [b] = _
    unfold dylibify processAll
    rw [hpb]
  · intro idN stubN ck lk rd bins hok
    unfold dylibify at hok
    cases hpa : processAll idN stubN ck rd bins with
    | error e =>
      rw [hpa] at hok
      simp [Except.isOk, Except.toBool] at hok
    | ok out =>
      rw [hpa] at hok
      have hconds := processAll_ok_conditions bins idN stubN ck rd out hpa
      constructor
      · intro b hb
        exact (hconds b hb).1
      · rintro ⟨b, hb, horph⟩
        refine ⟨(hconds b hb).2 horph, ?_⟩
        by_cases hlk : lk = true
        · exact hlk
        · exfalso
          have hlkf : lk = false := by
            cases lk
            · rfl
            · exact absurd rfl hlk
          have hanyb : bins.any (fun x => !((orphanSyms rd x).isEmpty)) = true :=
            List.any_eq_true.mpr ⟨b, hb, by rw [horph]; rfl⟩
          rw [hanyb, hlkf] at hok
          simp [Except.isOk, Except.toBool] at hok

/-- Witness for C6: a request to remove `libX` from a binary importing
only `libA` aborts with `DependencyNotFound`; a failing compiler with an
orphaned `_foo` aborts with `ToolchainFailure`; a clean run serializes and
so satisfies the success conditions. -/
theorem claim_C6_first_failure_aborts_witness :
    dylibify "id" "S" true true ["libX"]
        [⟨[⟨"libA", false⟩], [], [], []⟩] = .error .DependencyNotFound
    ∧ dylibify "id" "S" false true ["libA"]
        [⟨[⟨"libA", false⟩], [], [], [("_foo", "libA")]⟩] = .error .ToolchainFailure
    ∧ (∀ b ∈ ([⟨[⟨"libA", false⟩], [], [], []⟩] : List Binary),
        ∀ d ∈ (["libA"] : List String), (nonIdNames b.libs).contains d = true) :=
  ⟨claim_C6_first_failure_aborts.1 "id" "S" true true ["libX"]
      ⟨[⟨"libA", false⟩], [], [], []⟩ [] "libX" (by decide) (by decide),
   claim_C6_first_failure_aborts.2.1 "id" "S" true ["libA"]
      ⟨[⟨"libA", false⟩], [], [], [("_foo", "libA")]⟩
      [(1, 1)] [] [] (stubHeaderStr ++ plainFnBlock "foo")
      (by decide) (by decide) (by decide) (by decide) (by decide) (by decide),
   (claim_C6_first_failure_aborts.2.2 "id" "S" true true ["libA"]
      [⟨[⟨"libA", false⟩], [], [], []⟩] (by decide)).1⟩

/-- A symbol matching the class-reference convention also matches the
plain-symbol convention: the class marker itself begins with the
underscore. -/
theorem class_implies_plain (s : String) :
    strStartsWith s objc_class_prefix_str = true →
    strStartsWith s plain_prefix_str = true := by
  intro h
  unfold strStartsWith at h ⊢
  rw [List.isPrefixOf_iff_prefix] at h ⊢
  exact List.IsPrefix.trans (by decide) h

/-- The generator only ever appends to its accumulator. -/
theorem stub_go_extends :
    ∀ (l : List String) (acc out : String),
      create_stub_objc_go acc l = some out → ∃ tail, out = acc ++ tail := by
  intro l
  induction l with
  | nil =>
    intro acc out h
    injection h with h2
    exact ⟨"", by rw [← h2, String.append_empty]⟩
  | cons sym rest ih =>
    intro acc out h
    rw [create_stub_objc_go] at h
    by_cases hc : strStartsWith sym objc_class_prefix_str = true
    · rw [if_pos hc] at h
      rcases ih _ _ h with ⟨tail, htail⟩
      exact ⟨objcClassBlock (strDrop sym objc_class_prefix_str.length) ++ tail, by
        rw [htail, String.append_assoc]⟩
    · rw [if_neg hc] at h
      by_cases hp : strStartsWith sym plain_prefix_str = true
      · rw [if_pos hp] at h
        rcases ih _ _ h with ⟨tail, htail⟩
        exact ⟨plainFnBlock (strDrop sym plain_prefix_str.length) ++ tail, by
          rw [htail, String.append_assoc]⟩
      · rw [if_neg hp] at h
        simp at h

/-- Whenever generation succeeds, the block of each class-convention
symbol of the input appears in the output. -/
theorem stub_go_contains_class :
    ∀ (l : List String) (acc out : String) (s : String),
      create_stub_objc_go acc l = some out → s ∈ l →
      strStartsWith s objc_class_prefix_str = true →
      strContains out (objcClassBlock (strDrop s objc_class_prefix_str.length)) := by
  intro l
  induction l with
  | nil => intro acc out s _ hmem _; simp at hmem
  | cons sym rest ih =>
    intro acc out s h hmem hs
    rw [create_stub_objc_go] at h
    rcases List.mem_cons.mp hmem with rfl | hmem2
    · rw [if_pos hs] at h
      rcases stub_go_extends rest _ out h with ⟨tail, htail⟩
      exact ⟨acc, tail, htail⟩
    · by_cases hc : strStartsWith sym objc_class_prefix_str = true
      · rw [if_pos hc] at h
        exact ih _ out s h hmem2 hs
      · rw [if_neg hc] at h
        by_cases hp : strStartsWith sym plain_prefix_str = true
        · rw [if_pos hp] at h
          exact ih _ out s h hmem2 hs
        · rw [if_neg hp] at h
          simp at h

/-- Whenever generation succeeds, the aborting-callable block of each
plain-convention (non-class) symbol of the input appears in the output. -/
theorem stub_go_contains_plain :
    ∀ (l : List String) (acc out : String) (s : String),
      create_stub_objc_go acc l = some out → s ∈ l →
      strStartsWith s objc_class_prefix_str = false →
      strStartsWith s plain_prefix_str = true →
      strContains out (plainFnBlock (strDrop s plain_prefix_str.length)) := by
  intro l
  induction l with
  | nil => intro acc out s _ hmem _ _; simp at hmem
  | cons sym rest ih =>
    intro acc out s h hmem hs0 hs1
    rw [create_stub_objc_go] at h
    rcases List.mem_cons.mp hmem with rfl | hmem2
    · rw [if_neg (by simp [hs0]), if_pos hs1] at h
      rcases stub_go_extends rest _ out h with ⟨tail, htail⟩
      exact ⟨acc, tail, htail⟩
    · by_cases hc : strStartsWith sym objc_class_prefix_str = true
      · rw [if_pos hc] at h
        exact ih _ out s h hmem2 hs0 hs1
      · rw [if_neg hc] at h
        by_cases hp : strStartsWith sym plain_prefix_str = true
        · rw [if_pos hp] at h
          exact ih _ out s h hmem2 hs0 hs1
        · rw [if_neg hp] at h
          simp at h

/-- A symbol matching neither naming convention makes the generator hit
the `assert(!"this shouldn't happen")` abort, wherever it occurs. -/
theorem stub_go_none :
    ∀ (l : List String) (acc : String) (s : String), s ∈ l →
      strStartsWith s plain_prefix_str = false →
      create_stub_objc_go acc l = none := by
  intro l
  induction l with
  | nil => intro acc s hmem _; simp at hmem
  | cons sym rest ih =>
    intro acc s hmem hs
    rw [create_stub_objc_go]
    rcases List.mem_cons.mp hmem with rfl | hmem2
    · have hc : strStartsWith s objc_class_prefix_str = false := by
        cases h2 : strStartsWith s objc_class_prefix_str
        · rfl
        · exact absurd (class_implies_plain s h2) (by simp [hs])
      rw [if_neg (by simp [hc]), if_neg (by simp [hs])]
    · by_cases hc : strStartsWith sym objc_class_prefix_str = true
      · rw [if_pos hc]
        exact ih _ s hmem2 hs
      · rw [if_neg hc]
        by_cases hp : strStartsWith sym plain_prefix_str = true
        · rw [if_pos hp]
          exact ih _ s hmem2 hs
        · rw [if_neg hp]

/-- When every symbol matches the plain-symbol convention the generator
succeeds. -/
theorem stub_go_total :
    ∀ (l : List String) (acc : String),
      (∀ s ∈ l, strStartsWith s plain_prefix_str = true) →
      ∃ out, create_stub_objc_go acc l = some out := by
  intro l
  induction l with
  | nil => intro acc _; exact ⟨acc, rfl⟩
  | cons sym rest ih =>
    intro acc hall
    rw [create_stub_objc_go]
    by_cases hc : strStartsWith sym objc_class_prefix_str = true
    · rw [if_pos hc]
      exact ih _ fun s hs => hall s (List.mem_cons_of_mem _ hs)
    · rw [if_neg hc, if_pos (hall sym (by simp))]
      exact ih _ fun s hs => hall s (List.mem_cons_of_mem _ hs)

/-- C7: whenever the stub source is generated, it contains, for every
class-convention symbol, the empty placeholder type block under the name
obtained by stripping the class marker, and for every remaining
plain-convention symbol the aborting callable block under the name
obtained by stripping the underscore, whose body asserts with a diagnostic
naming the symbol; a symbol matching neither convention makes generation
assert (return `none`) instead of being silently skipped, and when all
symbols match a convention generation succeeds. -/
theorem claim_C7_stub_synthesis :
    (∀ (syms : List String) (out : String), create_stub_objc syms = some out →
      (∀ s ∈ syms, strStartsWith s objc_class_prefix_str = true →
        strContains out (objcClassBlock (strDrop s objc_class_prefix_str.length)))
      ∧ (∀ s ∈ syms, strStartsWith s objc_class_prefix_str = false →
          strStartsWith s plain_prefix_str = true →
          strContains out (plainFnBlock (strDrop s plain_prefix_str.length))))
    ∧ (∀ (syms : List String) (s : String), s ∈ syms →
        strStartsWith s plain_prefix_str = false → create_stub_objc syms = none)
    ∧ (∀ (syms : List String),
        (∀ s ∈ syms, strStartsWith s plain_prefix_str = true) →
        ∃ out, create_stub_objc syms = some out) := by
  refine ⟨?_, ?_, ?_⟩
  · intro syms out h
    exact ⟨fun s hs hc => stub_go_contains_class syms _ out s h hs hc,
           fun s hs hc hp => stub_go_contains_plain syms _ out s h hs hc hp⟩
  · intro syms s hs hp
    exact stub_go_none syms _ s hs hp
  · intro syms hall
    exact stub_go_total syms _ hall

set_option maxRecDepth 100000 in
/-- Witness for C7 at the orphan set of Scenario B: the generated source
for `[_OBJC_CLASS_$_Bar, _foo]` contains the empty `Bar` placeholder
block, and the unclassifiable symbol `weird` aborts generation. -/
theorem claim_C7_stub_synthesis_witness :
    strContains (stubHeaderStr ++ objcClassBlock "Bar" ++ plainFnBlock "foo")
      (objcClassBlock (strDrop "_OBJC_CLASS_$_Bar" objc_class_prefix_str.length))
    ∧ create_stub_objc ["weird"] = none :=
  ⟨(claim_C7_stub_synthesis.1 ["_OBJC_CLASS_$_Bar", "_foo"]
      (stubHeaderStr ++ objcClassBlock "Bar" ++ plainFnBlock "foo")
      (by decide)).1 "_OBJC_CLASS_$_Bar" (by decide) (by decide),
   claim_C7_stub_synthesis.2.1 ["weird"] "weird" (by decide) (by decide)⟩

/-- Every value of the old-to-new ordinal map is either the
value-initialized 0 (removed dependency with no stub present) or an
ordinal of the post-mutation table, hence between 1 and that table's
non-id entry count. -/
theorem ordinalRemap_values (t : List DylibCmd) (rs : List String)
    (idN stubN : String) (orph : Bool) (m : List (Int × Int))
    (hm : ordinalRemap t rs idN stubN orph = some m) :
    ∀ q ∈ m, q.2 = 0 ∨ (1 ≤ q.2
      ∧ q.2 ≤ ((nonIdNames (mutate t rs idN stubN orph)).length : Int)) := by
  intro q hq
  rcases origToNew_snd_cases (buildOrdinalMap t) _ rs stubN m hm q hq with h0 | ⟨p, hp, hpq⟩
  · exact Or.inl h0
  · right
    have hb := ordinalEntries_snd_bounds (mutate t rs idN stubN orph) [] 1 p hp
    omega

/-- C1: after the remapping completes, every non-sentinel dependency
ordinal referenced by a symbol — a rewritten modern binding-record
ordinal, or the ordinal packed in a rewritten legacy descriptor — lies in
`1..M` for the post-mutation table of M non-self entries, so it resolves
to an existing dependency entry; no dangling ordinal remains. -/
theorem claim_C1_no_dangling (t : List DylibCmd) (rs : List String)
    (idN stubN : String) (orph : Bool) (m : List (Int × Int))
    (hm : ordinalRemap t rs idN stubN orph = some m) :
    (∀ o n, rewriteModern m o = some n → n ≠ 0 →
        1 ≤ n ∧ n ≤ ((nonIdNames (mutate t rs idN stubN orph)).length : Int))
    ∧ (∀ d d2, rewriteLegacy m d = some d2 →
        get_library_ordinal d2 ≠ SELF_LIBRARY_ORDINAL →
        get_library_ordinal d2 ≠ DYNAMIC_LOOKUP_ORDINAL →
        get_library_ordinal d2 ≠ EXECUTABLE_ORDINAL →
        1 ≤ get_library_ordinal d2
        ∧ get_library_ordinal d2 ≤ (nonIdNames (mutate t rs idN stubN orph)).length) := by
  have hvals := ordinalRemap_values t rs idN stubN orph m hm
  constructor
  · intro o n hlook hn0
    rcases hvals (o, n) (lookup_mem hlook) with h0 | hb
    · exact absurd h0 hn0
    · exact hb
  · intro d d2 hrw hs0 hs1 hs2
    simp only [rewriteLegacy] at hrw
    by_cases hsent : get_library_ordinal d = SELF_LIBRARY_ORDINAL ∨
        get_library_ordinal d = DYNAMIC_LOOKUP_ORDINAL ∨
        get_library_ordinal d = EXECUTABLE_ORDINAL
    · rw [if_pos hsent] at hrw
      injection hrw with hd2
      subst hd2
      rcases hsent with h | h | h
      · exact absurd h hs0
      · exact absurd h hs1
      · exact absurd h hs2
    · rw [if_neg hsent] at hrw
      cases hl : m.lookup ((get_library_ordinal d : Nat) : Int) with
      | none =>
        rw [hl] at hrw
        simp at hrw
      | some v =>
        rw [hl] at hrw
        simp only [] at hrw
        injection hrw with hd2
        subst hd2
        have hlt := intToUInt8_lt v
        have hget : get_library_ordinal (set_library_ordinal d (intToUInt8 v))
            = intToUInt8 v := get_set_ordinal d _ hlt
        rw [hget] at hs0 hs1 hs2 ⊢
        have hemod1 := Int.emod_nonneg v (by norm_num : (256 : Int) ≠ 0)
        have hemod2 := Int.emod_lt_of_pos v (by norm_num : (0 : Int) < 256)
        have htn : ((intToUInt8 v : Nat) : Int) = v % 256 := by
          unfold intToUInt8
          exact Int.toNat_of_nonneg hemod1
        rcases hvals _ (lookup_mem hl) with h0 | ⟨h1, h2⟩
        · exfalso
          apply hs0
          unfold SELF_LIBRARY_ORDINAL
          simp only at h0
          omega
        · simp only at h1 h2
          unfold SELF_LIBRARY_ORDINAL at hs0
          constructor
          · omega
          · omega

/-- Witness for C1: removing `libB` from `[libA, libB]` with orphans
yields the map `[(1, 1), (2, 2)]`; the rewritten modern ordinal 2 and the
rewritten legacy descriptor 519 (packed ordinal 2) both resolve in the
2-entry post-mutation table. -/
theorem claim_C1_no_dangling_witness :
    ordinalRemap [⟨"libA", false⟩, ⟨"libB", false⟩] ["libB"] "id" "S" true
      = some [(1, 1), (2, 2)]
    ∧ (1 ≤ (2 : Int)
       ∧ (2 : Int) ≤ ((nonIdNames
           (mutate [⟨"libA", false⟩, ⟨"libB", false⟩] ["libB"] "id" "S" true)).length : Int))
    ∧ (1 ≤ get_library_ordinal 519
       ∧ get_library_ordinal 519 ≤ (nonIdNames
           (mutate [⟨"libA", false⟩, ⟨"libB", false⟩] ["libB"] "id" "S" true)).length) :=
  ⟨by decide,
   (claim_C1_no_dangling [⟨"libA", false⟩, ⟨"libB", false⟩] ["libB"] "id" "S" true
     [(1, 1), (2, 2)] (by decide)).1 2 2 (by decide) (by decide),
   (claim_C1_no_dangling [⟨"libA", false⟩, ⟨"libB", false⟩] ["libB"] "id" "S" true
     [(1, 1), (2, 2)] (by decide)).2 519 519 (by decide) (by decide) (by decide) (by decide)⟩

/-- C4: with a non-empty OrphanSet, exactly one stub dependency entry is
appended to the table — never more, whatever the orphan set's size or the
number of removed dependencies — its ordinal is the last one, every
removed (orphan-producing) dependency's old ordinal is remapped to that
single stub ordinal, and with an empty OrphanSet no stub entry appears. -/
theorem claim_C4_single_stub (t : List DylibCmd) (rs : List String)
    (idN stubN : String)
    (hnd : (nonIdNames t).Nodup)
    (hstub : ¬ stubN ∈ nonIdNames t) :
    nonIdNames (mutate t rs idN stubN true)
        = (nonIdNames t).filter (fun x => !(rs.contains x)) ++ [stubN]
    ∧ (nonIdNames (mutate t rs idN stubN true)).count stubN = 1
    ∧ (buildOrdinalMap (mutate t rs idN stubN true)).lookup stubN
        = some (((nonIdNames (mutate t rs idN stubN true)).length : Int))
    ∧ (∃ m, ordinalRemap t rs idN stubN true = some m
        ∧ ∀ r ∈ rs, ∀ o, (buildOrdinalMap t).lookup r = some o →
            rewriteModern m o
              = some (((nonIdNames (mutate t rs idN stubN true)).length : Int)))
    ∧ ¬ stubN ∈ nonIdNames (mutate t rs idN stubN false) := by
  have hnames : nonIdNames (mutate t rs idN stubN true)
      = (nonIdNames t).filter (fun x => !(rs.contains x)) ++ [stubN] := by
    simpa using mutate_names t rs idN stubN true hnd
  have hnd2 : (nonIdNames (mutate t rs idN stubN true)).Nodup :=
    mutate_names_nodup t rs idN stubN true hnd hstub
  have hnm : buildOrdinalMap (mutate t rs idN stubN true)
      = consecEntries 1 ((nonIdNames t).filter (fun x => !(rs.contains x)) ++ [stubN]) := by
    rw [buildOrdinalMap_eq_consec _ hnd2, hnames]
  have hstubF : ¬ stubN ∈ (nonIdNames t).filter (fun x => !(rs.contains x)) :=
    fun h => hstub (List.mem_of_mem_filter h)
  have hstubLookup : (consecEntries 1
        ((nonIdNames t).filter (fun x => !(rs.contains x)) ++ [stubN])).lookup stubN
      = some ((1 : Int) + (((nonIdNames t).filter (fun x => !(rs.contains x))).length : Int)) :=
    consec_lookup_append _ stubN [] 1 hstubF
  have hlen : (nonIdNames (mutate t rs idN stubN true)).length
      = ((nonIdNames t).filter (fun x => !(rs.contains x))).length + 1 := by
    rw [hnames, List.length_append]
    rfl
  have hom := buildOrdinalMap_eq_consec t hnd
  refine ⟨hnames, ?_, ?_, ?_, ?_⟩
  · rw [hnames, List.count_append]
    rw [List.count_eq_zero.mpr hstubF]
    simp
  · rw [hnm, hstubLookup, hlen]
    congr 1
    push_cast
    omega
  · have hhyp : ∀ q ∈ buildOrdinalMap t,
        ((buildOrdinalMap (mutate t rs idN stubN true)).lookup q.1).isSome = true
          ∨ rs.contains q.1 = true := by
      intro q hq
      have hq1 : q.1 ∈ nonIdNames t := by
        have : q.1 ∈ (buildOrdinalMap t).map Prod.fst := List.mem_map.mpr ⟨q, hq, rfl⟩
        rw [hom, consec_map_fst] at this
        exact this
      cases hc : rs.contains q.1
      · left
        rw [hnm]
        refine consec_lookup_isSome _ q.1 1 (List.mem_append.mpr (Or.inl ?_))
        exact List.mem_filter.mpr ⟨hq1, by rw [hc]; rfl⟩
      · right; rfl
    refine ⟨_, origToNew_eq_map (buildOrdinalMap t) _ rs stubN hhyp, ?_⟩
    intro r hr o hlook
    have hmem : (r, o) ∈ buildOrdinalMap t := lookup_mem hlook
    have hrns : r ∈ nonIdNames t := by
      have : r ∈ (buildOrdinalMap t).map Prod.fst := List.mem_map.mpr ⟨(r, o), hmem, rfl⟩
      rw [hom, consec_map_fst] at this
      exact this
    have hsnd : ((buildOrdinalMap t).map Prod.snd).Nodup := by
      rw [hom, consec_map_snd]
      exact intRange_nodup _ _
    have hlm := lookup_map_resolve (buildOrdinalMap t)
      (resolveNew (buildOrdinalMap (mutate t rs idN stubN true)) stubN) r o hsnd hmem
    show (List.map (fun p => (p.2,
        resolveNew (buildOrdinalMap (mutate t rs idN stubN true)) stubN p.1))
        (buildOrdinalMap t)).lookup o = _
    rw [hlm]
    have hrcont : rs.contains r = true :=
      List.contains_iff_exists_mem_beq.mpr ⟨r, hr, by simp⟩
    have hrnotf : ¬ r ∈ (nonIdNames t).filter (fun x => !(rs.contains x)) := by
      intro hmf
      have h2 := (List.mem_filter.mp hmf).2
      rw [hrcont] at h2
      simp at h2
    have hrnot : ¬ r ∈ (nonIdNames t).filter (fun x => !(rs.contains x)) ++ [stubN] := by
      intro hmm
      rcases List.mem_append.mp hmm with h1 | h1
      · exact hrnotf h1
      · exact hstub ((by simpa using h1 : r = stubN) ▸ hrns)
    have hres : resolveNew (buildOrdinalMap (mutate t rs idN stubN true)) stubN r
        = 1 + (((nonIdNames t).filter (fun x => !(rs.contains x))).length : Int) := by
      unfold resolveNew
      rw [hnm, consec_lookup_none _ r 1 hrnot]
      show stubOrdinal _ stubN = _
      unfold stubOrdinal
      rw [hstubLookup]
      rfl
    rw [hres, hlen]
    congr 1
    push_cast
    omega
  · intro hmem
    have hf : nonIdNames (mutate t rs idN stubN false)
        = (nonIdNames t).filter (fun x => !(rs.contains x)) := by
      simpa using mutate_names t rs idN stubN false hnd
    rw [hf] at hmem
    exact hstub (List.mem_of_mem_filter hmem)

/-- Witness for C4: removing `libB` from `[libA, libB]` with an orphaned
symbol adds one stub entry `S` with ordinal 2, and the removed library's
old ordinal 2 is remapped to it. -/
theorem claim_C4_single_stub_witness :
    (nonIdNames [⟨"libA", false⟩, ⟨"libB", false⟩]).Nodup
    ∧ ¬ "S" ∈ nonIdNames [⟨"libA", false⟩, ⟨"libB", false⟩]
    ∧ (nonIdNames (mutate [⟨"libA", false⟩, ⟨"libB", false⟩] ["libB"] "id" "S" true)).count "S"
        = 1 :=
  ⟨by decide, by decide,
   (claim_C4_single_stub [⟨"libA", false⟩, ⟨"libB", false⟩] ["libB"] "id" "S"
     (by decide) (by decide)).2.1⟩

/-- Witness for C10 on the table `[a, a, b]` with both names removed and
no stub present: the old-to-new map is `[(1, 0), (3, 0)]`, whose keys skip
the duplicate's positional ordinal 2. -/
theorem claim_C10_duplicate_names_witness :
    (buildOrdinalMap [⟨"a", false⟩, ⟨"a", false⟩, ⟨"b", false⟩]).lookup "a" = some 1
    ∧ (((3 : Int), (0 : Int)).1 ≠ 2)
    ∧ ¬ (nonIdNames [⟨"a", false⟩, ⟨"a", false⟩, ⟨"b", false⟩]).Nodup :=
  ⟨(claim_C10_duplicate_names.1 "a" [⟨"b", false⟩]).1,
   (claim_C10_duplicate_names.1 "a" [⟨"b", false⟩]).2.2.1 [] ["a", "b"] "S"
     [(1, 0), (3, 0)] (by decide) ((3 : Int), (0 : Int)) (by decide),
   (claim_C10_duplicate_names.1 "a" [⟨"b", false⟩]).2.2.2⟩

end Dylibify
